import Mathlib

/-!
Shallow embedding of the task-store logic of `src/app.py`, a Streamlit
to-do list application.  Python dictionaries holding task records are
modelled as Lean structures, the content of the persisted JSON file as an
optional parsed value, and the wall clock as explicit parameters: every
call to `datetime.now()` in the Python code becomes a parameter of the
embedded function.  Float timestamps (`datetime.now().timestamp()`) are
modelled as rationals, ISO-format timestamp strings as strings.
-/

namespace TodoApp

/-- A fully-formed task record as built by `create_task` in `app.py`:
fields `id` (float timestamp), `task` (the text), `done`, `priority`,
`created_at` (ISO string) and `completed_at` (ISO string or `None`). -/
structure Task where
  id : ℚ
  task : String
  done : Bool
  priority : String
  created_at : String
  completed_at : Option String
  deriving DecidableEq, Repr

/-- A task record as parsed from the JSON file, before the
backward-compatibility back-fill in `load_tasks`.  The four keys that
`load_tasks` tests with `not in` may be absent (`none`); `completed_at`
may additionally be present but `null` (`some none`).  Records missing
the `task` or `done` keys are outside the model: `app.py` never
back-fills those and would fail on first access to them. -/
structure RawTask where
  id : Option ℚ
  task : String
  done : Bool
  priority : Option String
  created_at : Option String
  completed_at : Option (Option String)
  deriving DecidableEq, Repr

/-- Embedding of `create_task` (`app.py` lines 11-19).  `nowTs` and
`nowIso` are the values of the two `datetime.now()` calls. -/
def create_task (nowTs : ℚ) (nowIso : String) (text : String)
    (priority : String) : Task :=
  { id := nowTs, task := text, done := false, priority := priority,
    created_at := nowIso, completed_at := none }

/-- Body of the backward-compatibility loop of `load_tasks` (`app.py`
lines 29-37): each statement `if key not in task: task[key] = default`
becomes an `Option.getD`. -/
def load_record (nowTs : ℚ) (nowIso : String) (r : RawTask) : Task :=
  { id := r.id.getD nowTs, task := r.task, done := r.done,
    priority := r.priority.getD "Medium",
    created_at := r.created_at.getD nowIso,
    completed_at := r.completed_at.getD none }

/-- Embedding of `load_tasks` (`app.py` lines 23-41).  The file system
and the JSON parser are modelled by the argument: `none` is a missing
file, `some none` a file whose content fails to parse
(`json.JSONDecodeError`), and `some (some raws)` a file parsing to a
list of records. -/
def load_tasks (content : Option (Option (List RawTask))) (nowTs : ℚ)
    (nowIso : String) : List Task :=
  match content with
  | none => []
  | some none => []
  | some (some raws) => raws.map (load_record nowTs nowIso)

/-- Image of a task record in the JSON file written by `save_tasks`:
every field is present (`json.dump` serializes the whole dictionary). -/
def taskToRaw (t : Task) : RawTask :=
  { id := some t.id, task := t.task, done := t.done,
    priority := some t.priority, created_at := some t.created_at,
    completed_at := some t.completed_at }

/-- Embedding of `save_tasks` (`app.py` lines 45-50) at the level seen
by a later `load_tasks`: the file now exists and parses back to the
records with every field present. -/
def save_tasks (tasks : List Task) : Option (Option (List RawTask)) :=
  some (some (tasks.map taskToRaw))

/-- Embedding of `toggle_task_completion` (`app.py` lines 54-60): the
`for`/`break` loop mutates the first record whose `id` matches, flipping
`done` and setting `completed_at` to the current time `nowIso` when the
new `done` is true, to `None` otherwise. -/
def toggle_task_completion (nowIso : String) (tasks : List Task)
    (task_id : ℚ) : List Task :=
  match tasks with
  | [] => []
  | t :: ts =>
    if t.id = task_id then
      { t with done := !t.done,
               completed_at := if !t.done then some nowIso else none } :: ts
    else
      t :: toggle_task_completion nowIso ts task_id

/-- Embedding of `delete_task` (`app.py` lines 64-68): the list
comprehension keeps exactly the records whose `id` differs. -/
def delete_task (tasks : List Task) (task_id : ℚ) : List Task :=
  tasks.filter (fun t => t.id ≠ task_id)

/-- Embedding of `edit_task` (`app.py` lines 72-78): the `for`/`break`
loop overwrites the text and `priority` of the first record whose `id`
matches. -/
def edit_task (tasks : List Task) (task_id : ℚ) (new_text : String)
    (new_priority : String) : List Task :=
  match tasks with
  | [] => []
  | t :: ts =>
    if t.id = task_id then
      { t with task := new_text, priority := new_priority } :: ts
    else
      t :: edit_task ts task_id new_text new_priority

/-- Embedding of the add-task form handler (`app.py` lines 232-235): a
fresh record is appended to the collection. -/
def add_task (nowTs : ℚ) (nowIso : String) (tasks : List Task)
    (text : String) (priority : String) : List Task :=
  tasks ++ [create_task nowTs nowIso text priority]

/-- Embedding of the Clear Completed handler (`app.py` lines 187-190):
keeps the records that are not done. -/
def clear_completed (tasks : List Task) : List Task :=
  tasks.filter (fun t => !t.done)

/-- Embedding of the confirm-upload handler (`app.py` lines 209-212):
`st.session_state.tasks.extend(imported_tasks)` appends the uploaded
records verbatim. -/
def batch_import (tasks imported : List Task) : List Task :=
  tasks ++ imported

/-- The `priority_order` dictionary lookup of `sort_tasks` (`app.py`
line 94 and 96): `.get(p, 1)` on the dictionary mapping High to 0,
Medium to 1 and Low to 2. -/
def priority_order (p : String) : Nat :=
  if p = "High" then 0 else if p = "Medium" then 1
  else if p = "Low" then 2 else 1

/-- Model of Python `sorted(xs, key=k)`: a stable sort comparing records
by the key only.  Python `sorted` is a stable sort; a stable sort by a
key is uniquely determined, and insertion sort on the key-based
less-or-equal relation is stable (proved below). -/
def pySorted {α K : Type} [LinearOrder K] (key : α → K) (l : List α) :
    List α :=
  l.insertionSort (fun a b => key a ≤ key b)

/-- The sort key `lambda x: (x["done"], priority_order.get(x["priority"], 1))`
of the Priority branch of `sort_tasks` (`app.py` line 96).  Python tuples
compare lexicographically and `False < True`, so the tuple becomes a
lexicographic product whose first component is `done` with the `Bool`
order `false < true`. -/
def keyPriority (x : Task) : Lex (Bool × Nat) :=
  toLex (x.done, priority_order x.priority)

/-- The sort key `lambda x: (x["done"], x["created_at"])` of the
Created Date branch of `sort_tasks` (`app.py` line 99).  Python string
comparison is modelled by the code-point lexicographic order on
`String`. -/
def keyCreated (x : Task) : Lex (Bool × String) :=
  toLex (x.done, x.created_at)

/-- The sort key `lambda x: (x["done"], x["task"].lower())` of the
Alphabetical branch of `sort_tasks` (`app.py` line 101).  Python
`str.lower` is modelled by `String.toLower`. -/
def keyAlpha (x : Task) : Lex (Bool × String) :=
  toLex (x.done, x.task.toLower)

/-- Embedding of `sort_tasks` (`app.py` lines 92-102). -/
def sort_tasks (tasks : List Task) (sort_by : String) : List Task :=
  if sort_by = "Priority" then
    pySorted keyPriority tasks
  else if sort_by = "Created Date" then
    pySorted keyCreated tasks
  else if sort_by = "Alphabetical" then
    pySorted keyAlpha tasks
  else tasks

/-- The record invariant stated by the spec: `done` is true iff
`completed_at` is present. -/
def Inv (tasks : List Task) : Prop :=
  ∀ t ∈ tasks, (t.done = true ↔ t.completed_at ≠ none)

instance (tasks : List Task) : Decidable (Inv tasks) :=
  List.decidableBAll _ tasks

/-- Pairwise distinctness of the `id` fields of a collection. -/
def DistinctIds (tasks : List Task) : Prop :=
  (tasks.map Task.id).Nodup

instance (tasks : List Task) : Decidable (DistinctIds tasks) :=
  List.nodupDecidable _

section StableSort

variable {α K : Type} [LinearOrder K]

theorem pySorted_perm (key : α → K) (l : List α) : (pySorted key l).Perm l :=
  List.perm_insertionSort _ l

theorem pySorted_pairwise (key : α → K) (l : List α) :
    (pySorted key l).Pairwise (fun a b => key a ≤ key b) := by
  haveI : IsTotal α fun a b => key a ≤ key b :=
    ⟨fun a b => le_total (key a) (key b)⟩
  haveI : IsTrans α fun a b => key a ≤ key b :=
    ⟨fun _ _ _ hab hbc => le_trans hab hbc⟩
  exact List.sorted_insertionSort _ l

theorem filter_orderedInsert_of_eq [DecidableEq K] (key : α → K) (v : K)
    (a : α) (ha : key a = v) :
    ∀ l : List α,
      (List.orderedInsert (fun a b => key a ≤ key b) a l).filter
          (fun x => decide (key x = v)) =
        a :: l.filter (fun x => decide (key x = v))
  | [] => by simp [ha]
  | b :: l => by
    by_cases h : key a ≤ key b
    · simp only [List.orderedInsert, if_pos h]
      simp [List.filter_cons, ha]
    · have hbv : ¬ key b = v := fun e => h (le_of_eq (ha.trans e.symm))
      simp only [List.orderedInsert, if_neg h, List.filter_cons,
        decide_eq_true_eq, hbv, if_false]
      rw [filter_orderedInsert_of_eq key v a ha l]

theorem filter_orderedInsert_of_ne [DecidableEq K] (key : α → K) (v : K)
    (a : α) (ha : ¬ key a = v) :
    ∀ l : List α,
      (List.orderedInsert (fun a b => key a ≤ key b) a l).filter
          (fun x => decide (key x = v)) =
        l.filter (fun x => decide (key x = v))
  | [] => by simp [ha]
  | b :: l => by
    by_cases h : key a ≤ key b
    · simp only [List.orderedInsert, if_pos h]
      simp [List.filter_cons, ha]
    · simp only [List.orderedInsert, if_neg h, List.filter_cons]
      rw [filter_orderedInsert_of_ne key v a ha l]

theorem pySorted_filter [DecidableEq K] (key : α → K) (v : K) :
    ∀ l : List α,
      (pySorted key l).filter (fun x => decide (key x = v)) =
        l.filter (fun x => decide (key x = v))
  | [] => rfl
  | a :: l => by
    have h1 : pySorted key (a :: l) =
        List.orderedInsert (fun a b => key a ≤ key b) a (pySorted key l) :=
      rfl
    rw [h1]
    by_cases ha : key a = v
    · rw [filter_orderedInsert_of_eq key v a ha, pySorted_filter key v l]
      simp [List.filter_cons, ha]
    · rw [filter_orderedInsert_of_ne key v a ha, pySorted_filter key v l]
      simp [List.filter_cons, ha]

end StableSort

/-- With a lexicographic key whose first component is `done`, a key
comparison with a completed task on the left forces the right task to be
completed as well. -/
theorem done_le_key {β : Type} [LinearOrder β] {d₁ d₂ : Bool} {s₁ s₂ : β}
    (h : toLex (d₁, s₁) ≤ toLex (d₂, s₂)) (hd : d₁ = true) : d₂ = true := by
  rcases (Prod.Lex.le_iff _ _).mp h with hlt | ⟨heq, _⟩
  · exact (Bool.lt_iff.mp hlt).2
  · subst hd
    exact heq.symm

/-- A sample completed record, used for concrete instantiations. -/
def sampleDone : Task :=
  { id := 1, task := "Buy milk", done := true, priority := "High",
    created_at := "2024-01-01T10:00:00", completed_at := some "2024-01-02T10:00:00" }

/-- A sample pending record, used for concrete instantiations. -/
def samplePending : Task :=
  { id := 2, task := "Walk dog", done := false, priority := "Low",
    created_at := "2024-01-03T10:00:00", completed_at := none }

/-- A sample parsed record with `done == true` whose `completed_at` key
is absent from the file. -/
def rawNoCompleted : RawTask :=
  { id := some 1, task := "Buy milk", done := true, priority := some "High",
    created_at := some "2024-01-01T10:00:00", completed_at := none }

/-- A sample parsed record carrying the unrecognized priority value
`Urgent` (present in the file, but not one of High, Medium, Low). -/
def rawUrgent : RawTask :=
  { id := some 3, task := "Pay rent", done := false, priority := some "Urgent",
    created_at := some "2024-01-04T10:00:00", completed_at := some none }

/-- Splitting the record invariant at a cons cell. -/
theorem inv_cons {t : Task} {ts : List Task} :
    Inv (t :: ts) ↔ ((t.done = true ↔ t.completed_at ≠ none) ∧ Inv ts) := by
  simp [Inv]

/-- `toggle_task_completion` keeps the `id` field of every record. -/
theorem toggle_map_id (nowIso : String) (task_id : ℚ) :
    ∀ l : List Task,
      (toggle_task_completion nowIso l task_id).map Task.id = l.map Task.id
  | [] => rfl
  | t :: ts => by
    by_cases h : t.id = task_id
    · simp [toggle_task_completion, h]
    · simp [toggle_task_completion, h, toggle_map_id nowIso task_id ts]

/-- `edit_task` keeps the `id` field of every record. -/
theorem edit_map_id (task_id : ℚ) (new_text new_priority : String) :
    ∀ l : List Task,
      (edit_task l task_id new_text new_priority).map Task.id = l.map Task.id
  | [] => rfl
  | t :: ts => by
    by_cases h : t.id = task_id
    · simp [edit_task, h]
    · simp [edit_task, h, edit_map_id task_id new_text new_priority ts]

/-- `toggle_task_completion` preserves the record invariant: it writes
`done` and `completed_at` together, consistently. -/
theorem inv_toggle (nowIso : String) (task_id : ℚ) :
    ∀ l : List Task, Inv l → Inv (toggle_task_completion nowIso l task_id)
  | [], h => h
  | t :: ts, h => by
    rw [inv_cons] at h
    by_cases hid : t.id = task_id
    · simp only [toggle_task_completion, if_pos hid]
      rw [inv_cons]
      refine ⟨?_, h.2⟩
      cases hd : t.done <;> simp [hd]
    · simp only [toggle_task_completion, if_neg hid]
      rw [inv_cons]
      exact ⟨h.1, inv_toggle nowIso task_id ts h.2⟩

/-- `edit_task` preserves the record invariant: it never touches `done`
or `completed_at`. -/
theorem inv_edit (task_id : ℚ) (new_text new_priority : String) :
    ∀ l : List Task, Inv l → Inv (edit_task l task_id new_text new_priority)
  | [], h => h
  | t :: ts, h => by
    rw [inv_cons] at h
    by_cases hid : t.id = task_id
    · simp only [edit_task, if_pos hid]
      rw [inv_cons]
      exact ⟨h.1, h.2⟩
    · simp only [edit_task, if_neg hid]
      rw [inv_cons]
      exact ⟨h.1, inv_edit task_id new_text new_priority ts h.2⟩

/-- Claim C1, counterexample.  `load_tasks` does not establish the
`done`/`completed_at` invariant: a parsed record with `done == true`
whose `completed_at` key is absent is back-filled with
`completed_at = None` and returned as is, so the returned collection
violates the invariant. -/
theorem load_breaks_done_completed_invariant :
    ¬ Inv (load_tasks (some (some [rawNoCompleted])) 0 "2024-01-05T10:00:00") := by
  decide

/-- Claim C1 (amended).  For every record, `done == true` iff
`completed_at` is present, is preserved by add, toggle, edit, delete and
clear_completed starting from any state satisfying it; it is preserved
by the batch import only when the imported records satisfy it, and it is
established by load only when every parsed record already satisfies it
(after the `completed_at` back-fill, a record's `completed_at` is its
parsed value with an absent key read as `None`). -/
theorem invariant_preserved_by_operations
    (l imported : List Task) (raws : List RawTask) (nowTs task_id : ℚ)
    (nowIso nowIso2 text priority : String) (hInv : Inv l) :
    Inv (add_task nowTs nowIso l text priority)
    ∧ Inv (toggle_task_completion nowIso2 l task_id)
    ∧ Inv (edit_task l task_id text priority)
    ∧ Inv (delete_task l task_id)
    ∧ Inv (clear_completed l)
    ∧ (Inv imported → Inv (batch_import l imported))
    ∧ ((∀ r ∈ raws, (r.done = true ↔ r.completed_at.getD none ≠ none)) →
        Inv (load_tasks (some (some raws)) nowTs nowIso)) := by
  refine ⟨?_, inv_toggle nowIso2 task_id l hInv,
    inv_edit task_id text priority l hInv, ?_, ?_, ?_, ?_⟩
  · intro t ht
    rcases List.mem_append.mp ht with h | h
    · exact hInv t h
    · rcases List.mem_singleton.mp h with rfl
      simp [create_task]
  · intro t ht
    exact hInv t (List.mem_of_mem_filter ht)
  · intro t ht
    exact hInv t (List.mem_of_mem_filter ht)
  · intro hImp t ht
    rcases List.mem_append.mp ht with h | h
    · exact hInv t h
    · exact hImp t h
  · intro hraw t ht
    simp only [load_tasks, List.mem_map] at ht
    rcases ht with ⟨r, hr, rfl⟩
    simpa [load_record] using hraw r hr

/-- Claim C1, witness for the amended theorem at concrete inputs. -/
theorem invariant_preserved_by_operations_witness :
    Inv [samplePending, sampleDone]
    ∧ Inv (toggle_task_completion "2024-02-01T10:00:00" [samplePending, sampleDone] 2)
    ∧ Inv (load_tasks (some (some [rawUrgent])) 0 "2024-02-01T10:00:00") :=
  ⟨by decide,
   (invariant_preserved_by_operations [samplePending, sampleDone] []
     [rawUrgent] 0 2 "2024-02-01T10:00:00" "2024-02-01T10:00:00" "x" "High"
     (by decide)).2.1,
   (invariant_preserved_by_operations [samplePending, sampleDone] []
     [rawUrgent] 0 2 "2024-02-01T10:00:00" "2024-02-01T10:00:00" "x" "High"
     (by decide)).2.2.2.2.2.2 (by decide)⟩

/-- Claim C9.  A freshly created task (as appended by the add handler)
has `done == false` and an absent `completed_at`: every new task enters
the collection incomplete. -/
theorem create_task_incomplete (nowTs : ℚ) (nowIso text priority : String)
    (h : text ≠ "") :
    (create_task nowTs nowIso text priority).done = false
    ∧ (create_task nowTs nowIso text priority).completed_at = none
    ∧ ∀ l : List Task,
        create_task nowTs nowIso text priority ∈
          add_task nowTs nowIso l text priority := by
  refine ⟨rfl, rfl, fun l => ?_⟩
  simp [add_task]

/-- Claim C9, witness at a concrete input. -/
theorem create_task_incomplete_witness :
    "Buy milk" ≠ ""
    ∧ (create_task 5 "2024-03-01T10:00:00" "Buy milk" "High").done = false :=
  ⟨by decide,
   (create_task_incomplete 5 "2024-03-01T10:00:00" "Buy milk" "High"
     (by decide)).1⟩

/-- Claim C10.  `delete_task` removes every record whose `id` equals the
given id (not merely the first match), keeps the relative order and the
multiplicity of all remaining records, and is the identity when no
record matches. -/
theorem delete_task_spec (l : List Task) (task_id : ℚ) :
    (∀ t ∈ delete_task l task_id, t.id ≠ task_id)
    ∧ (delete_task l task_id).Sublist l
    ∧ (∀ t ∈ l, t.id ≠ task_id → t ∈ delete_task l task_id)
    ∧ ((∀ t ∈ l, t.id ≠ task_id) → delete_task l task_id = l) := by
  refine ⟨?_, ?_, ?_, ?_⟩
  · intro t ht
    have := List.of_mem_filter ht
    simpa using this
  · exact List.filter_sublist l
  · intro t ht hne
    exact List.mem_filter.mpr ⟨ht, by simpa using hne⟩
  · intro hall
    apply List.filter_eq_self.mpr
    intro t ht
    simpa using hall t ht

/-- Claim C10, witness at a concrete input. -/
theorem delete_task_spec_witness :
    sampleDone ∈ [sampleDone, samplePending]
    ∧ sampleDone.id ≠ (2 : ℚ)
    ∧ sampleDone ∈ delete_task [sampleDone, samplePending] 2 :=
  ⟨by decide, by decide,
   (delete_task_spec [sampleDone, samplePending] 2).2.2.1 sampleDone
     (by decide) (by decide)⟩

/-- Claim C3, counterexample.  Toggling a completed record twice does
not restore its original `completed_at`: the second toggle installs a
fresh completion timestamp. -/
theorem toggle_twice_changes_completed_at :
    toggle_task_completion "2024-02-02T10:00:00"
        (toggle_task_completion "2024-02-01T10:00:00" [sampleDone] 1) 1
      ≠ [sampleDone]
    ∧ (toggle_task_completion "2024-02-02T10:00:00"
        (toggle_task_completion "2024-02-01T10:00:00" [sampleDone] 1) 1).map
          Task.completed_at = [some "2024-02-02T10:00:00"]
    ∧ [sampleDone].map Task.completed_at = [some "2024-01-02T10:00:00"] := by
  decide

/-- Claim C3 (amended).  Applying toggle twice always restores every
record's `done` flag; it restores the full `done`/`completed_at` state
exactly when the records matching the id were incomplete with an absent
`completed_at` (the state every record satisfying the invariant has
while incomplete).  For a completed record the second toggle replaces
`completed_at` with its own fresh timestamp. -/
theorem toggle_twice_spec (task_id : ℚ) (iso1 iso2 : String) :
    ∀ l : List Task,
      (toggle_task_completion iso2
          (toggle_task_completion iso1 l task_id) task_id).map Task.done
        = l.map Task.done
      ∧ ((∀ t ∈ l, t.id = task_id → t.done = false ∧ t.completed_at = none) →
          toggle_task_completion iso2
            (toggle_task_completion iso1 l task_id) task_id = l)
  | [] => ⟨rfl, fun _ => rfl⟩
  | t :: ts => by
    obtain ⟨ti, tx, td, tp, tc, tco⟩ := t
    by_cases h : ti = task_id
    · subst h
      constructor
      · simp [toggle_task_completion]
      · intro hall
        obtain ⟨hd, hc⟩ := hall ⟨ti, tx, td, tp, tc, tco⟩ (by simp) rfl
        simp only at hd hc
        subst hd
        subst hc
        simp [toggle_task_completion]
    · constructor
      · simp [toggle_task_completion, h,
          (toggle_twice_spec task_id iso1 iso2 ts).1]
      · intro hall
        have ih := (toggle_twice_spec task_id iso1 iso2 ts).2
          (fun u hu => hall u (List.mem_cons_of_mem _ hu))
        simp [toggle_task_completion, h, ih]

/-- Claim C3, witness for the amended theorem at a concrete input. -/
theorem toggle_twice_spec_witness :
    (∀ t ∈ [samplePending], t.id = (2 : ℚ) →
      t.done = false ∧ t.completed_at = none)
    ∧ toggle_task_completion "2024-02-02T10:00:00"
        (toggle_task_completion "2024-02-01T10:00:00" [samplePending] 2) 2
      = [samplePending] :=
  ⟨by decide,
   (toggle_twice_spec 2 "2024-02-01T10:00:00" "2024-02-02T10:00:00"
     [samplePending]).2 (by decide)⟩

/-- Claim C7.  `edit_task` changes at most the text and `priority`
fields: the length and order of the collection are kept
(`List.Forall₂` relates the lists position by position), every record
keeps its `id`, `done`, `created_at` and `completed_at`, every record
whose `id` differs from the given one is kept unchanged, and when no
record matches the collection is unchanged. -/
theorem edit_task_frame (task_id : ℚ) (new_text new_priority : String) :
    ∀ l : List Task,
      (edit_task l task_id new_text new_priority).length = l.length
      ∧ List.Forall₂ (fun t t' => t'.id = t.id ∧ t'.done = t.done
          ∧ t'.created_at = t.created_at ∧ t'.completed_at = t.completed_at
          ∧ (t.id ≠ task_id → t' = t)) l
          (edit_task l task_id new_text new_priority)
      ∧ ((∀ t ∈ l, t.id ≠ task_id) →
          edit_task l task_id new_text new_priority = l)
  | [] => ⟨rfl, List.Forall₂.nil, fun _ => rfl⟩
  | t :: ts => by
    by_cases h : t.id = task_id
    · refine ⟨?_, ?_, ?_⟩
      · simp only [edit_task, if_pos h]
        simp [(edit_task_frame task_id new_text new_priority ts).1]
      · simp only [edit_task, if_pos h]
        refine List.Forall₂.cons ⟨rfl, rfl, rfl, rfl, fun hne => absurd h hne⟩ ?_
        exact List.forall₂_same.mpr fun x _ => ⟨rfl, rfl, rfl, rfl, fun _ => rfl⟩
      · intro hall
        exact absurd h (hall t (List.mem_cons_self t ts))
    · obtain ⟨hlen, hfa, hid⟩ := edit_task_frame task_id new_text new_priority ts
      refine ⟨?_, ?_, ?_⟩
      · simp [edit_task, h, hlen]
      · simp only [edit_task, if_neg h]
        exact List.Forall₂.cons ⟨rfl, rfl, rfl, rfl, fun _ => rfl⟩ hfa
      · intro hall
        simp only [edit_task, if_neg h]
        rw [hid fun u hu => hall u (List.mem_cons_of_mem _ hu)]

/-- Claim C7, witness: the wait-there-is-no-match case at a concrete
input. -/
theorem edit_task_frame_witness :
    (∀ t ∈ [sampleDone], t.id ≠ (7 : ℚ))
    ∧ edit_task [sampleDone] 7 "New text" "Low" = [sampleDone] :=
  ⟨by decide, (edit_task_frame 7 "New text" "Low" [sampleDone]).2.2 (by decide)⟩

/-- Claim C8, counterexample.  The batch import appends records
verbatim, so importing a record whose `id` already occurs breaks the
uniqueness of ids. -/
theorem batch_import_breaks_id_uniqueness :
    DistinctIds [sampleDone]
    ∧ ¬ DistinctIds (batch_import [sampleDone] [sampleDone]) := by
  decide

/-- Claim C8 (amended).  Starting from a collection with pairwise
distinct ids, toggle, edit, delete and clear_completed keep the ids
pairwise distinct; add keeps them distinct provided the freshly
assigned timestamp id does not already occur (the code relies on the
clock for freshness); the batch import keeps them distinct only when
the imported records have pairwise distinct ids none of which already
occurs. -/
theorem distinct_ids_preserved
    (l imported : List Task) (nowTs task_id : ℚ)
    (nowIso iso2 text priority : String) (hd : DistinctIds l) :
    DistinctIds (toggle_task_completion iso2 l task_id)
    ∧ DistinctIds (edit_task l task_id text priority)
    ∧ DistinctIds (delete_task l task_id)
    ∧ DistinctIds (clear_completed l)
    ∧ ((∀ t ∈ l, t.id ≠ nowTs) →
        DistinctIds (add_task nowTs nowIso l text priority))
    ∧ ((∀ t ∈ imported, ∀ s ∈ l, t.id ≠ s.id) → DistinctIds imported →
        DistinctIds (batch_import l imported)) := by
  refine ⟨?_, ?_, ?_, ?_, ?_, ?_⟩
  · unfold DistinctIds
    rw [toggle_map_id]
    exact hd
  · unfold DistinctIds
    rw [edit_map_id]
    exact hd
  · exact List.Nodup.sublist ((List.filter_sublist l).map Task.id) hd
  · exact List.Nodup.sublist ((List.filter_sublist l).map Task.id) hd
  · intro hfresh
    unfold DistinctIds add_task
    rw [List.map_append]
    refine List.Nodup.append hd (by simp) ?_
    intro a ha hb
    simp only [List.map_cons, List.map_nil, List.mem_singleton, create_task] at hb
    rcases List.mem_map.mp ha with ⟨t, ht, rfl⟩
    exact hfresh t ht hb
  · intro hfresh hImp
    unfold DistinctIds batch_import
    rw [List.map_append]
    refine List.Nodup.append hd hImp ?_
    intro a ha hb
    rcases List.mem_map.mp ha with ⟨s, hs, rfl⟩
    rcases List.mem_map.mp hb with ⟨t, ht, he⟩
    exact hfresh t ht s hs he

/-- Claim C8, witness for the amended theorem at concrete inputs. -/
theorem distinct_ids_preserved_witness :
    DistinctIds [sampleDone, samplePending]
    ∧ DistinctIds (delete_task [sampleDone, samplePending] 1)
    ∧ DistinctIds
        (add_task 5 "2024-03-01T10:00:00" [sampleDone, samplePending] "x" "Low") :=
  ⟨by decide,
   (distinct_ids_preserved [sampleDone, samplePending] [] 5 1
     "2024-03-01T10:00:00" "2024-03-01T10:00:00" "x" "Low" (by decide)).2.2.1,
   (distinct_ids_preserved [sampleDone, samplePending] [] 5 1
     "2024-03-01T10:00:00" "2024-03-01T10:00:00" "x" "Low"
     (by decide)).2.2.2.2.1 (by decide)⟩

/-- Branch selection of `sort_tasks` for the Priority key. -/
theorem sort_tasks_priority_eq (tasks : List Task) :
    sort_tasks tasks "Priority" = pySorted keyPriority tasks := rfl

/-- Branch selection of `sort_tasks` for the Created Date key. -/
theorem sort_tasks_created_eq (tasks : List Task) :
    sort_tasks tasks "Created Date" = pySorted keyCreated tasks := rfl

/-- Branch selection of `sort_tasks` for the Alphabetical key. -/
theorem sort_tasks_alpha_eq (tasks : List Task) :
    sort_tasks tasks "Alphabetical" = pySorted keyAlpha tasks := rfl

/-- Claim C2.  For each of the three sort keys, `sort_tasks` returns a
permutation of its input that is sorted by the corresponding
lexicographic key whose primary component is `done` (so every
incomplete record comes before every completed one), and the sort is
stable: for every key value, the records carrying that key value appear
in the output in exactly their input order.  The secondary orders are
the priority rank (High 0, Medium 1, Low 2), the `created_at` string
(ascending timestamp for ISO-formatted timestamps) and the
lower-cased text. -/
theorem sort_tasks_stable_grouped_ordered (tasks : List Task) :
    ((sort_tasks tasks "Priority").Perm tasks
      ∧ (sort_tasks tasks "Priority").Pairwise
          (fun a b => keyPriority a ≤ keyPriority b)
      ∧ (∀ v, (sort_tasks tasks "Priority").filter
            (fun x => decide (keyPriority x = v))
          = tasks.filter (fun x => decide (keyPriority x = v)))
      ∧ (sort_tasks tasks "Priority").Pairwise
          (fun a b => a.done = true → b.done = true))
    ∧ ((sort_tasks tasks "Created Date").Perm tasks
      ∧ (sort_tasks tasks "Created Date").Pairwise
          (fun a b => keyCreated a ≤ keyCreated b)
      ∧ (∀ v, (sort_tasks tasks "Created Date").filter
            (fun x => decide (keyCreated x = v))
          = tasks.filter (fun x => decide (keyCreated x = v)))
      ∧ (sort_tasks tasks "Created Date").Pairwise
          (fun a b => a.done = true → b.done = true))
    ∧ ((sort_tasks tasks "Alphabetical").Perm tasks
      ∧ (sort_tasks tasks "Alphabetical").Pairwise
          (fun a b => keyAlpha a ≤ keyAlpha b)
      ∧ (∀ v, (sort_tasks tasks "Alphabetical").filter
            (fun x => decide (keyAlpha x = v))
          = tasks.filter (fun x => decide (keyAlpha x = v)))
      ∧ (sort_tasks tasks "Alphabetical").Pairwise
          (fun a b => a.done = true → b.done = true)) := by
  rw [sort_tasks_priority_eq, sort_tasks_created_eq, sort_tasks_alpha_eq]
  refine ⟨⟨pySorted_perm _ tasks, pySorted_pairwise _ tasks,
      fun v => pySorted_filter _ v tasks, ?_⟩,
    ⟨pySorted_perm _ tasks, pySorted_pairwise _ tasks,
      fun v => pySorted_filter _ v tasks, ?_⟩,
    ⟨pySorted_perm _ tasks, pySorted_pairwise _ tasks,
      fun v => pySorted_filter _ v tasks, ?_⟩⟩
  · exact (pySorted_pairwise keyPriority tasks).imp fun h hd => done_le_key h hd
  · exact (pySorted_pairwise keyCreated tasks).imp fun h hd => done_le_key h hd
  · exact (pySorted_pairwise keyAlpha tasks).imp fun h hd => done_le_key h hd

/-- Claim C4, counterexample.  An unrecognized priority value that is
present in the file is returned unchanged by load, not replaced by
Medium. -/
theorem load_keeps_unrecognized_priority :
    (load_tasks (some (some [rawUrgent])) 0 "2024-01-05T10:00:00").map
        Task.priority = ["Urgent"]
    ∧ "Urgent" ≠ "Medium" ∧ "Urgent" ≠ "High" ∧ "Urgent" ≠ "Low" := by
  decide

/-- Claim C4 (amended).  On load, every record whose `priority` key is
missing is back-filled with Medium; every present `priority` value,
recognized or not, is returned unchanged.  (Unrecognized values are
treated as Medium only downstream, by the sort key and the styling
lookup, not normalized at load.) -/
theorem load_priority_backfill (raws : List RawTask) (nowTs : ℚ)
    (nowIso : String) :
    (load_tasks (some (some raws)) nowTs nowIso).map Task.priority
      = raws.map (fun r => r.priority.getD "Medium")
    ∧ (∀ r ∈ raws, r.priority = none →
        (load_record nowTs nowIso r).priority = "Medium")
    ∧ (∀ r ∈ raws, ∀ p, r.priority = some p →
        (load_record nowTs nowIso r).priority = p) := by
  refine ⟨?_, ?_, ?_⟩
  · simp only [load_tasks, List.map_map]
    rfl
  · intro r _ hp
    simp [load_record, hp]
  · intro r _ p hp
    simp [load_record, hp]

/-- A sample parsed record whose `priority` key is absent from the
file. -/
def rawNoPriority : RawTask :=
  { id := some 4, task := "Email", done := false, priority := none,
    created_at := some "2024-01-05T10:00:00", completed_at := some none }

/-- Claim C4, witness for the amended theorem at a concrete input. -/
theorem load_priority_backfill_witness :
    rawNoPriority ∈ [rawNoPriority]
    ∧ rawNoPriority.priority = none
    ∧ (load_record 0 "2024-01-06T10:00:00" rawNoPriority).priority = "Medium" :=
  ⟨by decide, rfl,
   (load_priority_backfill [rawNoPriority] 0 "2024-01-06T10:00:00").2.1
     rawNoPriority (by decide) rfl⟩

/-- Claim C5.  Load returns the empty sequence when the file is absent
and when its content fails to parse; otherwise it returns the parsed
records, one output record per input record in order, with missing
`id`, `priority`, `created_at` and `completed_at` keys back-filled with
the current timestamp, Medium, the current timestamp and `None`
respectively, and all present values (and the `task` text and `done`
flag) kept unchanged. -/
theorem load_tasks_spec (raws : List RawTask) (nowTs : ℚ) (nowIso : String) :
    load_tasks none nowTs nowIso = []
    ∧ load_tasks (some none) nowTs nowIso = []
    ∧ (load_tasks (some (some raws)) nowTs nowIso).length = raws.length
    ∧ (∀ r ∈ raws,
        (load_record nowTs nowIso r).task = r.task
        ∧ (load_record nowTs nowIso r).done = r.done
        ∧ (r.id = none → (load_record nowTs nowIso r).id = nowTs)
        ∧ (∀ v, r.id = some v → (load_record nowTs nowIso r).id = v)
        ∧ (r.priority = none → (load_record nowTs nowIso r).priority = "Medium")
        ∧ (∀ p, r.priority = some p → (load_record nowTs nowIso r).priority = p)
        ∧ (r.created_at = none → (load_record nowTs nowIso r).created_at = nowIso)
        ∧ (∀ s, r.created_at = some s → (load_record nowTs nowIso r).created_at = s)
        ∧ (r.completed_at = none → (load_record nowTs nowIso r).completed_at = none)
        ∧ (∀ c, r.completed_at = some c → (load_record nowTs nowIso r).completed_at = c))
    ∧ load_tasks (some (some raws)) nowTs nowIso
      = raws.map (load_record nowTs nowIso) := by
  refine ⟨rfl, rfl, by simp [load_tasks], ?_, rfl⟩
  intro r _
  refine ⟨rfl, rfl, ?_, ?_, ?_, ?_, ?_, ?_, ?_, ?_⟩
  · intro h
    simp [load_record, h]
  · intro v h
    simp [load_record, h]
  · intro h
    simp [load_record, h]
  · intro p h
    simp [load_record, h]
  · intro h
    simp [load_record, h]
  · intro s h
    simp [load_record, h]
  · intro h
    simp [load_record, h]
  · intro c h
    simp [load_record, h]

/-- Claim C5, witness at a concrete input. -/
theorem load_tasks_spec_witness :
    rawNoCompleted ∈ [rawNoCompleted]
    ∧ rawNoCompleted.created_at = some "2024-01-01T10:00:00"
    ∧ (load_record 0 "2024-01-06T10:00:00" rawNoCompleted).created_at
      = "2024-01-01T10:00:00" :=
  ⟨by decide, rfl,
   ((load_tasks_spec [rawNoCompleted] 0 "2024-01-06T10:00:00").2.2.2.1
       rawNoCompleted (by decide)).2.2.2.2.2.2.2.1 "2024-01-01T10:00:00" rfl⟩

/-- Claim C6.  Saving a well-formed collection and loading it back
yields the original collection, record for record and field for field:
the file written by save has every field present, so the load-time
back-fill changes nothing. -/
theorem save_load_roundtrip (tasks : List Task) (nowTs : ℚ)
    (nowIso : String) :
    load_tasks (save_tasks tasks) nowTs nowIso = tasks := by
  simp only [save_tasks, load_tasks, List.map_map]
  rw [show (load_record nowTs nowIso ∘ taskToRaw) = id from funext fun t => rfl,
    List.map_id]

end TodoApp
